import Mathlib

/-!
Verification development for the git-manager CLI (JavaScript, `src/`).

The definitions below are a shallow embedding of the program:

* `toKebabCase` embeds the naming normalizer `toKebabCase` of `api.mjs`
  (trim, lower-case, strip characters outside `[\w\s-]`, collapse runs of
  whitespace/underscore into a single hyphen).  JavaScript strings are
  modelled as `List Char`; the regex classes `\w` and `\s` are modelled by
  the explicit character sets `isWordChar` and `isSpaceChar` below, and
  `String.prototype.toLowerCase` by the ASCII map `jsToLower`.
* `getMainBranch` embeds `getMainBranch` of `api.mjs`.
* `doRelease`, `createReleaseBranchM`, `createHotfixM`,
  `createFeatureBranchA`, `cherryPickChangesM` embed the orchestrator
  workflows of `commands/branches-actions.mjs` as trace-producing
  functions: every call to a git mutation primitive or to an interactive
  prompt is recorded as an `Ev` event, in source order, and the outcomes of
  fallible backend calls are supplied by an environment record (one field
  per call site, `true` = the call succeeded, `false` = it threw /
  reported failure).
* `registerCmds`, `menuDispatch` embed the command registration of
  `commands/index.mjs` and the no-subcommand interactive menu of
  `index.mjs`.
-/

namespace GitManager

/-- ASCII upper-case letters, the `A-Z` part of the regex class `\w`. -/
def isUpperAscii (c : Char) : Bool :=
  c = 'A' || c = 'B' || c = 'C' || c = 'D' || c = 'E' || c = 'F' || c = 'G' ||
  c = 'H' || c = 'I' || c = 'J' || c = 'K' || c = 'L' || c = 'M' || c = 'N' ||
  c = 'O' || c = 'P' || c = 'Q' || c = 'R' || c = 'S' || c = 'T' || c = 'U' ||
  c = 'V' || c = 'W' || c = 'X' || c = 'Y' || c = 'Z'

/-- ASCII lower-case letters, the `a-z` part of the regex class `\w`. -/
def isLowerAscii (c : Char) : Bool :=
  c = 'a' || c = 'b' || c = 'c' || c = 'd' || c = 'e' || c = 'f' || c = 'g' ||
  c = 'h' || c = 'i' || c = 'j' || c = 'k' || c = 'l' || c = 'm' || c = 'n' ||
  c = 'o' || c = 'p' || c = 'q' || c = 'r' || c = 's' || c = 't' || c = 'u' ||
  c = 'v' || c = 'w' || c = 'x' || c = 'y' || c = 'z'

/-- ASCII digits, the `0-9` part of the regex class `\w`. -/
def isDigitAscii (c : Char) : Bool :=
  c = '0' || c = '1' || c = '2' || c = '3' || c = '4' ||
  c = '5' || c = '6' || c = '7' || c = '8' || c = '9'

/-- The JavaScript regex class `\w`, i.e. `[A-Za-z0-9_]`. -/
def isWordChar (c : Char) : Bool :=
  isUpperAscii c || isLowerAscii c || isDigitAscii c || c = '_'

/-- The JavaScript regex class `\s` (ECMAScript WhiteSpace and
LineTerminator code points). -/
def isSpaceChar (c : Char) : Bool :=
  c = ' ' || c = '\t' || c = '\n' || c = '\r' || c = '\x0b' || c = '\x0c' ||
  c = '\xa0' || c = '\u1680' ||
  c = '\u2000' || c = '\u2001' || c = '\u2002' || c = '\u2003' ||
  c = '\u2004' || c = '\u2005' || c = '\u2006' || c = '\u2007' ||
  c = '\u2008' || c = '\u2009' || c = '\u200a' ||
  c = '\u2028' || c = '\u2029' || c = '\u202f' || c = '\u205f' ||
  c = '\u3000' || c = '\ufeff'

/-- The class `[\s_]` whose runs the final `replace` of `toKebabCase`
collapses into a single hyphen. -/
def isSep (c : Char) : Bool := isSpaceChar c || c = '_'

/-- `String.prototype.toLowerCase`, restricted to the ASCII letters (the
only case-carrying characters that survive the `[^\w\s-]` strip of
`toKebabCase`). -/
def jsToLower (c : Char) : Char :=
  if c = 'A' then 'a' else if c = 'B' then 'b' else if c = 'C' then 'c' else
  if c = 'D' then 'd' else if c = 'E' then 'e' else if c = 'F' then 'f' else
  if c = 'G' then 'g' else if c = 'H' then 'h' else if c = 'I' then 'i' else
  if c = 'J' then 'j' else if c = 'K' then 'k' else if c = 'L' then 'l' else
  if c = 'M' then 'm' else if c = 'N' then 'n' else if c = 'O' then 'o' else
  if c = 'P' then 'p' else if c = 'Q' then 'q' else if c = 'R' then 'r' else
  if c = 'S' then 's' else if c = 'T' then 't' else if c = 'U' then 'u' else
  if c = 'V' then 'v' else if c = 'W' then 'w' else if c = 'X' then 'x' else
  if c = 'Y' then 'y' else if c = 'Z' then 'z' else c

/-- `String.prototype.trim`: drop leading and trailing whitespace. -/
def jsTrim (l : List Char) : List Char :=
  ((l.dropWhile isSpaceChar).reverse.dropWhile isSpaceChar).reverse

/-- The strip step `.replace(/[^\w\s-]/g, '')` of `toKebabCase`: keep
exactly the characters matching `[\w\s-]`. -/
def stripNonWord (l : List Char) : List Char :=
  l.filter (fun c => isWordChar c || isSpaceChar c || c = '-')

/-- The collapse step `.replace(/[\s_]+/g, '-')` of `toKebabCase`:
each maximal run of `[\s_]` characters becomes one hyphen.  The boolean
argument records whether the previous character was part of such a run. -/
def collapseGo : Bool → List Char → List Char
  | _, [] => []
  | inRun, c :: rest =>
    if isSep c then
      if inRun then collapseGo true rest
      else '-' :: collapseGo true rest
    else c :: collapseGo false rest

/-- `.replace(/[\s_]+/g, '-')` applied to a whole string. -/
def collapseRuns (l : List Char) : List Char := collapseGo false l

/-- `toKebabCase` of `api.mjs`:
`text.trim().toLowerCase().replace(/[^\w\s-]/g, '').replace(/[\s_]+/g, '-')`. -/
def toKebabCase (l : List Char) : List Char :=
  collapseRuns (stripNonWord ((jsTrim l).map jsToLower))

/-- `toKebabCase` lifted to `String` via its character list. -/
def toKebabCaseStr (s : String) : String :=
  ⟨toKebabCase s.data⟩

/-- `String.prototype.toLowerCase` lifted to `String` (used by
`createFeatureBranch` for `toKebabCase(branchName).toLowerCase()`). -/
def toLowerStr (s : String) : String :=
  ⟨s.data.map jsToLower⟩

/-- `String.prototype.startsWith(p)`, kernel-evaluable prefix test on the
character lists. -/
def strStartsWith (s p : String) : Bool :=
  p.data.isPrefixOf s.data

/-- Remove the first occurrence of `pat` from a character list:
`String.prototype.replace(pat, '')` with a non-empty plain-string pattern
(used by `doRelease` for `releaseBranch.replace(branchPrefix, '')`). -/
def removeFirst (pat : List Char) : List Char → List Char
  | [] => []
  | c :: rest =>
    if pat.isPrefixOf (c :: rest) then (c :: rest).drop pat.length
    else c :: removeFirst pat rest

/-- `releaseBranch.replace(branchPrefix, '')` lifted to `String`. -/
def replaceFirstStr (s pat : String) : String :=
  ⟨removeFirst pat.data s.data⟩

/-- `getMainBranch` of `api.mjs`:
`branches.find(branch => branch.startsWith('main') || branch.startsWith('master'))`,
with `undefined` modelled as `none`.  `branches` is the result of the
`getAllBranches()` query. -/
def getMainBranch (branches : List String) : Option String :=
  branches.find? (fun b => strStartsWith b "main" || strStartsWith b "master")

/-- Modelled from the spec (§4.4 step 4), for comparison with
`getMainBranch`: the first branch *literally named* `main` or *prefixed*
`master`. -/
def getMainBranchSpec (branches : List String) : Option String :=
  branches.find? (fun b => b = "main" || strStartsWith b "master")

/-- One recorded call to a git backend primitive or to an interactive
prompt.  Events are appended to a run's trace at the moment the source
invokes the corresponding function, whether or not the call then succeeds.
`promptConfirmTag` is the separate "create a tag?" confirmation that the
spec describes; it is part of the event vocabulary so that statements
about it can be made, but no workflow below ever emits it. -/
inductive Ev where
  | promptSelectBranch (choices : List String)
  | promptConfirmFinish
  | promptConfirmTag
  | promptTagName
  | promptIssueKey
  | promptBranchName
  | promptSelectCommit
  | promptConfirmCherry
  | stash
  | checkout (b : String)
  | pull
  | merge (b : String)
  | createTag (t : String)
  | push (r : String)
  | deleteLocal (b : String)
  | deleteRemote (b : String)
  | createBranch (name : String) (start : Option String)
  | setUpstreamPush
  | cherryPick (h : String)
  | applyStash
deriving DecidableEq, Repr

/-- `true` when an event is a call to a Mutation Facade primitive (as
opposed to a prompt). -/
def Ev.isMutation : Ev → Bool
  | .promptSelectBranch _ | .promptConfirmFinish | .promptConfirmTag
  | .promptTagName | .promptIssueKey | .promptBranchName
  | .promptSelectCommit | .promptConfirmCherry => false
  | _ => true

/-- Prepend an event to a trace-producing computation's result. -/
def consTr {α : Type} (e : Ev) (p : List Ev × α) : List Ev × α :=
  (e :: p.1, p.2)

/-- Terminal states of `doRelease`.  `errorCaught` is the outer
`catch (error)` of `doRelease`, which logs the error and returns. -/
inductive ROutcome where
  | invalidType
  | noBranches
  | noMain
  | canceled
  | abortedMergeMain
  | abortedMergeDev
  | deleteLocalFailed
  | errorCaught
  | completed
deriving DecidableEq, Repr

/-- Environment of one `doRelease` run: the branch list returned by
`getAllBranches()`, the user's prompt answers, and one boolean per
fallible backend call site, in source order (`true` = the call succeeds,
`false` = it throws, or for `deleteLocalBranch` returns
`success: false`). -/
structure RelEnv where
  branches : List String
  selected : String
  confirm : Bool
  tagAnswer : String
  stashOk : Bool
  coRelOk : Bool
  coMain1Ok : Bool
  pullMainOk : Bool
  coDev1Ok : Bool
  pullDevOk : Bool
  coMain2Ok : Bool
  mergeMainOk : Bool
  coDev2Ok : Bool
  mergeDev1Ok : Bool
  mergeDev2Ok : Bool
  createTagOk : Bool
  pushMainOk : Bool
  pushDevOk : Bool
  pushTagOk : Bool
  deleteLocalOk : Bool
  deleteRemoteOk : Bool
  coDev3Ok : Bool
deriving Repr

/-- Run a sequence of backend calls: each step is (recorded event,
whether the call succeeds, outcome with which the run stops when it
throws / fails).  The event is recorded at the moment of the call; a
failing step truncates the rest of the sequence; when every step
succeeds the run is `completed`. -/
def runSteps : List (Ev × Bool × ROutcome) → List Ev × ROutcome
  | [] => ([], .completed)
  | (e, ok, bad) :: rest =>
    if ok then (e :: (runSteps rest).1, (runSteps rest).2)
    else ([e], bad)

/-- The call sites of the post-confirmation mutation phase of
`doRelease` (`branches-actions.mjs` lines 501-556), in source order,
from `stashChanges()` to the final `checkoutBranch('develop')`.  The two
consecutive `mergeBranch` calls into `develop` mirror the source: the
first (line 528) is outside any `try`, so its failure is caught only by
the outer catch of `doRelease` (`errorCaught`); the second (line 530) is
inside a `try` whose catch returns (`abortedMergeDev`).  Tag creation is
unconditional: the only tag-related prompt is `listAndSelectTag`'s
free-text tag name (`promptTagName`, not a call that can fail).  A
`deleteLocalBranch` result with `success: false` makes the workflow
return (`deleteLocalFailed`). -/
def relSteps (env : RelEnv) (releaseBranch mainBranch tagName : String) :
    List (Ev × Bool × ROutcome) :=
  [(.stash, env.stashOk, .errorCaught),
   (.checkout releaseBranch, env.coRelOk, .errorCaught),
   (.checkout mainBranch, env.coMain1Ok, .errorCaught),
   (.pull, env.pullMainOk, .errorCaught),
   (.checkout "develop", env.coDev1Ok, .errorCaught),
   (.pull, env.pullDevOk, .errorCaught),
   (.checkout mainBranch, env.coMain2Ok, .errorCaught),
   (.merge releaseBranch, env.mergeMainOk, .abortedMergeMain),
   (.checkout "develop", env.coDev2Ok, .errorCaught),
   (.merge releaseBranch, env.mergeDev1Ok, .errorCaught),
   (.merge releaseBranch, env.mergeDev2Ok, .abortedMergeDev),
   (.promptTagName, true, .errorCaught),
   (.createTag env.tagAnswer, env.createTagOk, .errorCaught),
   (.push mainBranch, env.pushMainOk, .errorCaught),
   (.push "develop", env.pushDevOk, .errorCaught),
   (.push tagName, env.pushTagOk, .errorCaught),
   (.deleteLocal releaseBranch, env.deleteLocalOk, .deleteLocalFailed),
   (.deleteRemote releaseBranch, env.deleteRemoteOk, .errorCaught),
   (.checkout "develop", env.coDev3Ok, .errorCaught)]

/-- The post-confirmation mutation phase of `doRelease`: the call sites
of `relSteps` run in order until the first failure. -/
def relMut (env : RelEnv) (releaseBranch mainBranch tagName : String) :
    List Ev × ROutcome :=
  runSteps (relSteps env releaseBranch mainBranch tagName)

/-- `doRelease(type)` of `branches-actions.mjs` (shared by `finishRelease`
and `finishHotfix`): list branches with the `hotfix/` or `release/`
prefix, stop if none; prompt for a selection; derive `tagName` by removing
the prefix from the selected name; resolve the main branch, stop if
absent; confirm; then run the mutation phase `relMut`. -/
def doRelease (type : String) (env : RelEnv) : List Ev × ROutcome :=
  if type ≠ "hotfix" ∧ type ≠ "release" then ([], .invalidType) else
  let branchPrefix := if type = "hotfix" then "hotfix/" else "release/"
  let releaseBranches := env.branches.filter (fun b => strStartsWith b branchPrefix)
  if releaseBranches.isEmpty then ([], .noBranches) else
  consTr (.promptSelectBranch releaseBranches) <|
  let releaseBranch := env.selected
  let tagName := replaceFirstStr releaseBranch branchPrefix
  match getMainBranch env.branches with
  | none => ([], .noMain)
  | some mainBranch =>
    consTr .promptConfirmFinish <|
    if !env.confirm then ([], .canceled) else
    relMut env releaseBranch mainBranch tagName

/-- Environment of the shared base-branch update helpers `checkoutDevelop`
and `checkoutMain` of `branches-actions.mjs`: whether `getStatus()` showed
uncommitted changes, and the outcomes of the stash / checkout /
pull-with-rebase calls. -/
structure BaseEnv where
  statusDirty : Bool
  stashOk : Bool
  coOk : Bool
  pullOk : Bool
deriving Repr

/-- `checkoutDevelop` of `branches-actions.mjs`: stash when the tree is
dirty, check out `develop`, pull with rebase.  Returns the recorded
events and `true` when no call threw. -/
def checkoutDevelopM (e : BaseEnv) : List Ev × Bool :=
  if e.statusDirty && !e.stashOk then ([.stash], false) else
  let pre := if e.statusDirty then [Ev.stash] else []
  if !e.coOk then (pre ++ [.checkout "develop"], false) else
  if !e.pullOk then (pre ++ [.checkout "develop", .pull], false) else
  (pre ++ [.checkout "develop", .pull], true)

/-- `checkoutMain` of `branches-actions.mjs`: stash when dirty, check out
`getMainBranch()`, pull with rebase.  When `getMainBranch()` returns
`undefined`, the template literal in `checkoutBranch` interpolates it as
the string `"undefined"` (`git checkout undefined`). -/
def checkoutMainM (branches : List String) (e : BaseEnv) : List Ev × Bool :=
  let mainBranch := (getMainBranch branches).getD "undefined"
  if e.statusDirty && !e.stashOk then ([.stash], false) else
  let pre := if e.statusDirty then [Ev.stash] else []
  if !e.coOk then (pre ++ [.checkout mainBranch], false) else
  if !e.pullOk then (pre ++ [.checkout mainBranch, .pull], false) else
  (pre ++ [.checkout mainBranch, .pull], true)

/-- Terminal states of `createReleaseBranch` / `createHotfix`.
`precondFail existing` is the thrown precondition error whose message
interpolates `existing.join(', ')` — it carries exactly the list of
offending branches that the message lists. -/
inductive CROutcome where
  | precondFail (existing : List String)
  | errorThrown
  | ok (branch : String)
deriving DecidableEq, Repr

/-- Environment of one `createReleaseBranch` / `createHotfix` run. -/
structure CreateEnv where
  branches : List String
  base : BaseEnv
  tagAnswer : String
  createOk : Bool
deriving Repr

/-- `createReleaseBranch` of `branches-actions.mjs`: fail if any
`release/` branch exists (before any mutation), otherwise update
`develop`, prompt for a tag (`listAndSelectTag`), create
`release/<tag>` from `develop`, and set-upstream-and-push (whose result
object the source ignores). -/
def createReleaseBranchM (e : CreateEnv) : List Ev × CROutcome :=
  let existingReleases := e.branches.filter (fun b => strStartsWith b "release/")
  if !existingReleases.isEmpty then ([], .precondFail existingReleases) else
  let p := checkoutDevelopM e.base
  if !p.2 then (p.1, .errorThrown) else
  let newBranchName := "release/" ++ e.tagAnswer
  let t := p.1 ++ [Ev.promptTagName, Ev.createBranch newBranchName (some "develop")]
  if !e.createOk then (t, .errorThrown) else
  (t ++ [Ev.setUpstreamPush], .ok newBranchName)

/-- `createHotfix` of `branches-actions.mjs`: fail if any `hotfix/`
branch exists (before any mutation), otherwise update the main branch,
prompt for a tag, and create `hotfix/<tag>` from `getMainBranch()` (a
second `getMainBranch()` call; when it returns `undefined`, the falsy
check in `createBranch` omits the start point). -/
def createHotfixM (e : CreateEnv) : List Ev × CROutcome :=
  let existingHotfixes := e.branches.filter (fun b => strStartsWith b "hotfix/")
  if !existingHotfixes.isEmpty then ([], .precondFail existingHotfixes) else
  let p := checkoutMainM e.branches e.base
  if !p.2 then (p.1, .errorThrown) else
  let newBranchName := "hotfix/" ++ e.tagAnswer
  let t := p.1 ++ [Ev.promptTagName, Ev.createBranch newBranchName (getMainBranch e.branches)]
  if !e.createOk then (t, .errorThrown) else
  (t, .ok newBranchName)

/-- Terminal states of the `createFeatureBranch` of
`branches-actions.mjs`.  There is no success state: every run that gets
past `createBranch` evaluates `if (changesStashed)`, and `changesStashed`
is not declared anywhere in that function's scope (it is a local of
`checkoutDevelop`); ES modules run in strict mode, so the read throws a
`ReferenceError`, which the function's catch logs and re-throws. -/
inductive FOutcome where
  | errorThrown
  | refError
deriving DecidableEq, Repr

/-- Environment of one `createFeatureBranch` run
(`branches-actions.mjs` version, the one registered for the
`create-feature` subcommand). -/
structure FeatEnv where
  base : BaseEnv
  issueKey : String
  branchName : String
  createOk : Bool
deriving Repr

/-- `createFeatureBranch` of `branches-actions.mjs`: update `develop`
via `checkoutDevelop`, prompt for issue key and descriptive name, derive
`feature/<toKebabCase(issueKey)>-<toKebabCase(branchName).toLowerCase()>`,
create it from `develop`, then hit the undeclared `changesStashed` read
(see `FOutcome`). -/
def createFeatureBranchA (e : FeatEnv) : List Ev × FOutcome :=
  let p := checkoutDevelopM e.base
  if !p.2 then (p.1, .errorThrown) else
  let newBranchName :=
    "feature/" ++ toKebabCaseStr e.issueKey ++ "-" ++
      toLowerStr (toKebabCaseStr e.branchName)
  let t := p.1 ++ [Ev.promptIssueKey, Ev.promptBranchName,
    Ev.createBranch newBranchName (some "develop")]
  if !e.createOk then (t, .errorThrown) else
  (t, .refError)

/-- Terminal states of `cherryPickChanges`.  `completed` covers both the
success and the conflict report of `cherryPickCommit` (the structured
result only changes the printed message, never the control flow). -/
inductive COutcome where
  | errorThrown
  | noBranches
  | noCommits
  | canceled
  | completed
deriving DecidableEq, Repr

/-- Environment of one `cherryPickChanges` run.  `cherryOk` is
`cherryPickCommit(...).success`; it selects the success or the
conflict-guidance message but does not change the control flow. -/
structure CherryEnv where
  statusDirty : Bool
  stashOk : Bool
  branches : List String
  currentBranch : String
  selectedBranch : String
  coSelOk : Bool
  coBackOk : Bool
  commitsEmpty : Bool
  selectedCommit : String
  confirm : Bool
  cherryOk : Bool
  applyOk : Bool
deriving Repr

/-- The part of `cherryPickChanges` after the commit list has been
fetched (from `if (commits.length === 0)` on).  In the empty-commits and
cancel paths the stash restore is a bare `applyStash()` call whose
failure propagates to the outer catch and is re-thrown; after the
cherry-pick has executed, `applyStash()` sits inside a `try` whose catch
only prints manual-recovery guidance, so the run completes regardless of
`applyOk` (and regardless of `cherryOk`). -/
def cherryAfterFetch (e : CherryEnv) (t : List Ev) : List Ev × COutcome :=
  if e.commitsEmpty then
    if e.statusDirty then
      (t ++ [Ev.applyStash], if e.applyOk then .noCommits else .errorThrown)
    else (t, .noCommits)
  else
  let t := t ++ [Ev.promptSelectCommit, Ev.promptConfirmCherry]
  if !e.confirm then
    if e.statusDirty then
      (t ++ [Ev.applyStash], if e.applyOk then .canceled else .errorThrown)
    else (t, .canceled)
  else
  let t := t ++ [Ev.cherryPick e.selectedCommit]
  if e.statusDirty then (t ++ [Ev.applyStash], .completed)
  else (t, .completed)

/-- `cherryPickChanges` of `branches-actions.mjs`: stash when the tree is
dirty, pick a source branch among the others, temporarily check it out to
list its commits when it is not the current branch, then continue with
`cherryAfterFetch`. -/
def cherryPickChangesM (e : CherryEnv) : List Ev × COutcome :=
  let t0 := if e.statusDirty then [Ev.stash] else []
  if e.statusDirty && !e.stashOk then (t0, .errorThrown) else
  let branches := e.branches.filter (fun b => b ≠ e.currentBranch)
  if branches.isEmpty then (t0, .noBranches) else
  let t1 := t0 ++ [Ev.promptSelectBranch branches]
  if e.selectedBranch ≠ e.currentBranch then
    if !e.coSelOk then (t1 ++ [Ev.checkout e.selectedBranch], .errorThrown) else
    if !e.coBackOk then
      (t1 ++ [Ev.checkout e.selectedBranch, Ev.checkout e.currentBranch], .errorThrown)
    else
      cherryAfterFetch e (t1 ++ [Ev.checkout e.selectedBranch, Ev.checkout e.currentBranch])
  else
    cherryAfterFetch e t1

/-- The export names of `commands/branches-actions.mjs` (the module bound
to `branches` in `commands/index.mjs`). -/
def branchesActionsExports : List String :=
  ["listBranches", "branchesActions", "checkoutBranchAndUpdate",
   "createFeatureBranch", "createReleaseBranch", "createHotfix",
   "finishHotfix", "finishRelease", "cherryPickChanges"]

/-- `registerCommands` of `commands/index.mjs`: the subcommand names it
registers, each paired with the name of the function its `.action(...)`
references (`showInteractiveMenu` is local to `commands/index.mjs`; all
others are accessed as `branches.<name>`). -/
def registerCmds : List (String × String) :=
  [("interactive", "showInteractiveMenu"),
   ("branches", "listBranches"),
   ("checkout-branch", "checkoutBranchAndUpdate"),
   ("delete-branches", "branchesActions"),
   ("create-feature", "createFeatureBranch"),
   ("create-release", "createReleaseBranch"),
   ("create-hotfix", "createHotfix"),
   ("finish-hotfix", "finishHotfix"),
   ("cherry-pick", "cherryPickChanges"),
   ("merge-feature", "mergeFeatureBranchCommand")]

/-- Whether an action name registered by `registerCommands` resolves to a
defined function: either the local `showInteractiveMenu` or an export of
`branches-actions.mjs`. -/
def actionDefined (a : String) : Bool :=
  a = "showInteractiveMenu" || branchesActionsExports.contains a

/-- The `commands` object exported by `commands/index.mjs`:
`{ branches }`, i.e. the single member `branches` holding the namespace
of `branches-actions.mjs`. -/
def commandsObject : List (String × List String) :=
  [("branches", branchesActionsExports)]

/-- Result of one case of the interactive-menu `switch` in `index.mjs`. -/
inductive MenuResult where
  | invoked (fn : String)
  | typeError
deriving DecidableEq, Repr

/-- Evaluate `commands.<modName>.<fn>()`: reading a property of an
absent member (`commands.<modName>` is `undefined`) throws a `TypeError`,
and so does calling a member that the module does not export. -/
def memberAccessCall (modName fn : String) : MenuResult :=
  match commandsObject.find? (fun p => p.1 = modName) with
  | none => .typeError
  | some p => if p.2.contains fn then .invoked fn else .typeError

/-- The `switch (action)` of the no-subcommand interactive menu defined
locally in `index.mjs` (not the richer menu of `commands/index.mjs`).
The dispatch does not consult any repository state; `none` is the `exit`
case and unmatched values, which call nothing. -/
def menuDispatch : String → Option MenuResult
  | "list-branches" => some (memberAccessCall "branches" "listBranches")
  | "checkout-branch" => some (memberAccessCall "branches" "checkoutBranchAndUpdate")
  | "delete-branches" => some (memberAccessCall "branches" "branches")
  | "create-feature" => some (memberAccessCall "feature" "createFeatureBranch")
  | _ => none

/-- Characters that `toKebabCase` maps to themselves when they appear in
its output: hyphens, and word characters other than `_` that are already
lower case. -/
def goodChar (c : Char) : Prop :=
  (isWordChar c || c = '-') = true ∧ isSep c = false ∧ jsToLower c = c

/-- The events of the finish workflow that come after the two merges:
tag creation, pushes, and branch deletions. -/
def Ev.isFollowup : Ev → Bool
  | .createTag _ | .push _ | .deleteLocal _ | .deleteRemote _ => true
  | _ => false

/-- `noReach P steps` holds when no step whose event satisfies `P` can
be reached by `runSteps`: every step before the first failing one has an
event with `P` false. -/
def noReach (P : Ev → Bool) : List (Ev × Bool × ROutcome) → Bool
  | [] => true
  | (e, ok, _) :: rest => !P e && (!ok || noReach P rest)

/-- All backend calls of the mutation phase of `doRelease` succeed. -/
def RelEnv.allMutOk (e : RelEnv) : Prop :=
  e.stashOk = true ∧ e.coRelOk = true ∧ e.coMain1Ok = true ∧
  e.pullMainOk = true ∧ e.coDev1Ok = true ∧ e.pullDevOk = true ∧
  e.coMain2Ok = true ∧ e.mergeMainOk = true ∧ e.coDev2Ok = true ∧
  e.mergeDev1Ok = true ∧ e.mergeDev2Ok = true ∧ e.createTagOk = true ∧
  e.pushMainOk = true ∧ e.pushDevOk = true ∧ e.pushTagOk = true ∧
  e.deleteLocalOk = true ∧ e.deleteRemoteOk = true ∧ e.coDev3Ok = true

/-- A base-update environment for a clean tree in which every backend
call succeeds. -/
def baseOk : BaseEnv :=
  { statusDirty := false, stashOk := true, coOk := true, pullOk := true }

/-- A `doRelease` environment for a repository holding `main`, `develop`
and `hotfix/1.0.1`, with every prompt confirmed and every backend call
succeeding. -/
def relEnvAllOk : RelEnv :=
  { branches := ["main", "develop", "hotfix/1.0.1"],
    selected := "hotfix/1.0.1", confirm := true, tagAnswer := "1.0.1",
    stashOk := true, coRelOk := true, coMain1Ok := true, pullMainOk := true,
    coDev1Ok := true, pullDevOk := true, coMain2Ok := true, mergeMainOk := true,
    coDev2Ok := true, mergeDev1Ok := true, mergeDev2Ok := true,
    createTagOk := true, pushMainOk := true, pushDevOk := true,
    pushTagOk := true, deleteLocalOk := true, deleteRemoteOk := true,
    coDev3Ok := true }

/-- The `createFeatureBranch` environment of the spec's end-to-end
scenario: clean tree, issue key `JIRA-123`, name `Test Feature`. -/
def featEnvJira : FeatEnv :=
  { base := baseOk, issueKey := "JIRA-123", branchName := "Test Feature",
    createOk := true }

/-- A `createReleaseBranch` / `createHotfix` environment with no
release or hotfix branch and every call succeeding. -/
def createEnvClean : CreateEnv :=
  { branches := ["main", "develop"], base := baseOk, tagAnswer := "1.0.2",
    createOk := true }

/-- A `cherryPickChanges` environment with a dirty tree, a selected
foreign branch and commit, in which the cherry-pick reports a conflict
and the final stash restore fails. -/
def cherryEnvDirty : CherryEnv :=
  { statusDirty := true, stashOk := true,
    branches := ["main", "develop", "feature/x"], currentBranch := "develop",
    selectedBranch := "feature/x", coSelOk := true, coBackOk := true,
    commitsEmpty := false, selectedCommit := "abc1234", confirm := true,
    cherryOk := false, applyOk := false }

/- ### Theorems -/

theorem upper_cases {c : Char} (h : isUpperAscii c = true) :
    c = 'A' ∨ c = 'B' ∨ c = 'C' ∨ c = 'D' ∨ c = 'E' ∨ c = 'F' ∨ c = 'G' ∨
    c = 'H' ∨ c = 'I' ∨ c = 'J' ∨ c = 'K' ∨ c = 'L' ∨ c = 'M' ∨ c = 'N' ∨
    c = 'O' ∨ c = 'P' ∨ c = 'Q' ∨ c = 'R' ∨ c = 'S' ∨ c = 'T' ∨ c = 'U' ∨
    c = 'V' ∨ c = 'W' ∨ c = 'X' ∨ c = 'Y' ∨ c = 'Z' := by
  simpa [isUpperAscii, Bool.or_eq_true, decide_eq_true_eq, or_assoc] using h

theorem jsToLower_of_not_upper {c : Char} (h : isUpperAscii c = false) :
    jsToLower c = c := by
  simp only [isUpperAscii, Bool.or_eq_false_iff, decide_eq_false_iff_not] at h
  simp_all [jsToLower]

theorem not_upper_jsToLower (c : Char) : isUpperAscii (jsToLower c) = false := by
  by_cases h : isUpperAscii c = true
  · rcases upper_cases h with rfl|rfl|rfl|rfl|rfl|rfl|rfl|rfl|rfl|rfl|rfl|rfl|rfl|rfl|rfl|rfl|rfl|rfl|rfl|rfl|rfl|rfl|rfl|rfl|rfl|rfl <;> decide
  · rw [jsToLower_of_not_upper (Bool.eq_false_iff.mpr h)]
    exact Bool.eq_false_iff.mpr h

theorem jsToLower_idem (c : Char) : jsToLower (jsToLower c) = jsToLower c :=
  jsToLower_of_not_upper (not_upper_jsToLower c)

theorem mem_collapseGo {c : Char} : ∀ {b : Bool} {l : List Char},
    c ∈ collapseGo b l → c = '-' ∨ (c ∈ l ∧ isSep c = false) := by
  intro b l
  induction l generalizing b with
  | nil => simp [collapseGo]
  | cons a t ih =>
    intro h
    by_cases ha : isSep a = true
    · rw [collapseGo, if_pos ha] at h
      rcases b with _ | _
      · simp only [Bool.false_eq_true, if_false, List.mem_cons] at h
        rcases h with rfl | h
        · exact Or.inl rfl
        · rcases ih h with h' | ⟨hm, hs⟩
          · exact Or.inl h'
          · exact Or.inr ⟨List.mem_cons_of_mem _ hm, hs⟩
      · simp only [if_true] at h
        rcases ih h with h' | ⟨hm, hs⟩
        · exact Or.inl h'
        · exact Or.inr ⟨List.mem_cons_of_mem _ hm, hs⟩
    · rw [collapseGo, if_neg ha] at h
      rcases List.mem_cons.mp h with rfl | h
      · exact Or.inr ⟨List.mem_cons_self _ _, Bool.eq_false_iff.mpr ha⟩
      · rcases ih h with h' | ⟨hm, hs⟩
        · exact Or.inl h'
        · exact Or.inr ⟨List.mem_cons_of_mem _ hm, hs⟩

theorem collapseGo_eq_self {l : List Char} (h : ∀ c ∈ l, isSep c = false) :
    ∀ b, collapseGo b l = l := by
  induction l with
  | nil => intro b; rfl
  | cons a t ih =>
    intro b
    rw [collapseGo, if_neg (by simp [h a (List.mem_cons_self a t)])]
    rw [ih (fun c hc => h c (List.mem_cons_of_mem _ hc))]

theorem dropWhile_eq_self_of {p : Char → Bool} {l : List Char}
    (h : ∀ c ∈ l, p c = false) : l.dropWhile p = l := by
  cases l with
  | nil => rfl
  | cons a t =>
    rw [List.dropWhile_cons, if_neg (by simp [h a (List.mem_cons_self a t)])]

theorem map_eq_self_of {f : Char → Char} {l : List Char}
    (h : ∀ c ∈ l, f c = c) : l.map f = l := by
  induction l with
  | nil => rfl
  | cons a t ih =>
    rw [List.map_cons, h a (List.mem_cons_self a t),
      ih (fun c hc => h c (List.mem_cons_of_mem _ hc))]

theorem jsTrim_eq_self {l : List Char} (h : ∀ c ∈ l, isSpaceChar c = false) :
    jsTrim l = l := by
  unfold jsTrim
  rw [dropWhile_eq_self_of h,
    dropWhile_eq_self_of (fun c hc => h c (List.mem_reverse.mp hc)),
    List.reverse_reverse]

theorem mem_jsTrim {c : Char} {l : List Char} (h : c ∈ jsTrim l) : c ∈ l := by
  unfold jsTrim at h
  have h1 := List.mem_reverse.mp h
  have h2 := (List.dropWhile_sublist _).mem h1
  have h3 := List.mem_reverse.mp h2
  exact (List.dropWhile_sublist _).mem h3

theorem sep_false_facts {c : Char} (hs : isSep c = false) :
    isSpaceChar c = false ∧ (c = '_' → False) := by
  simp only [isSep, Bool.or_eq_false_iff, decide_eq_false_iff_not] at hs
  exact ⟨hs.1, hs.2⟩

theorem toKebabCase_mem_good {l : List Char} :
    ∀ c ∈ toKebabCase l, goodChar c := by
  intro c hc
  unfold toKebabCase collapseRuns at hc
  rcases mem_collapseGo hc with rfl | ⟨hmem, hsep⟩
  · exact ⟨by decide, by decide, by decide⟩
  · rcases List.mem_filter.mp hmem with ⟨hmap, hkeep⟩
    rcases List.mem_map.mp hmap with ⟨d, _, rfl⟩
    have hfix : jsToLower (jsToLower d) = jsToLower d := jsToLower_idem d
    have hsp : isSpaceChar (jsToLower d) = false := (sep_false_facts hsep).1
    have hkeep' : isWordChar (jsToLower d) = true ∨
        isSpaceChar (jsToLower d) = true ∨ jsToLower d = '-' := by
      simpa [Bool.or_assoc] using hkeep
    have hword : (isWordChar (jsToLower d) || jsToLower d = '-') = true := by
      rcases hkeep' with h | h | h
      · simp [h]
      · rw [h] at hsp; exact absurd hsp (by simp)
      · simp [h]
    exact ⟨hword, hsep, hfix⟩

theorem toKebabCase_fixes {l : List Char} (h : ∀ c ∈ l, goodChar c) :
    toKebabCase l = l := by
  have hsep : ∀ c ∈ l, isSep c = false := fun c hc => (h c hc).2.1
  have hsp : ∀ c ∈ l, isSpaceChar c = false :=
    fun c hc => (sep_false_facts (hsep c hc)).1
  have hlow : ∀ c ∈ l, jsToLower c = c := fun c hc => (h c hc).2.2
  have hkeep : ∀ c ∈ l, (isWordChar c || isSpaceChar c || c = '-') = true := by
    intro c hc
    have h' : isWordChar c = true ∨ c = '-' := by simpa using (h c hc).1
    rcases h' with h' | h' <;> simp [h']
  unfold toKebabCase collapseRuns stripNonWord
  rw [jsTrim_eq_self hsp, map_eq_self_of hlow, List.filter_eq_self.mpr hkeep,
    collapseGo_eq_self hsep]

/-- C8: `toKebabCase` is idempotent, and on input made of ASCII letters,
digits, and spaces its output has no upper-case letter and no space. -/
theorem toKebabCase_idem_clean :
    (∀ l : List Char, toKebabCase (toKebabCase l) = toKebabCase l) ∧
    (∀ l : List Char,
      (∀ c ∈ l, (isUpperAscii c || isLowerAscii c || isDigitAscii c || c = ' ') = true) →
      ∀ c ∈ toKebabCase l, isUpperAscii c = false ∧ c ≠ ' ') := by
  constructor
  · intro l
    exact toKebabCase_fixes (toKebabCase_mem_good)
  · intro l _ c hc
    obtain ⟨_, hsep, hfix⟩ := toKebabCase_mem_good c hc
    constructor
    · by_contra hup
      have : isUpperAscii c = true := Bool.not_eq_false _ |>.mp hup
      rcases upper_cases this with rfl|rfl|rfl|rfl|rfl|rfl|rfl|rfl|rfl|rfl|rfl|rfl|rfl|rfl|rfl|rfl|rfl|rfl|rfl|rfl|rfl|rfl|rfl|rfl|rfl|rfl <;> exact absurd hfix (by decide)
    · intro hspace
      rw [hspace] at hsep
      exact absurd hsep (by decide)

/-- C8 witness: the two parts of `toKebabCase_idem_clean` evaluated at the
concrete input `"Test Feature 42"`. -/
theorem toKebabCase_idem_clean_witness :
    toKebabCase (toKebabCase ("Test Feature 42".data)) =
      toKebabCase ("Test Feature 42".data) ∧
    (∀ c ∈ toKebabCase ("Test Feature 42".data),
      isUpperAscii c = false ∧ c ≠ ' ') :=
  ⟨toKebabCase_idem_clean.1 ("Test Feature 42".data),
   toKebabCase_idem_clean.2 ("Test Feature 42".data) (by decide)⟩

/-- C10: in the no-subcommand interactive menu of `index.mjs`, the
`delete-branches` selection calls `commands.branches.branches` and the
`create-feature` selection calls `commands.feature.createFeatureBranch`;
the exported `commands` object has only the `branches` member, whose
module exports `branchesActions` but no `branches` and which has no
`feature` member, so both selections end in a `TypeError` instead of
invoking a workflow (the dispatch consults no repository state). -/
theorem interactiveMenu_typeError :
    menuDispatch "delete-branches" = some MenuResult.typeError ∧
    menuDispatch "create-feature" = some MenuResult.typeError ∧
    commandsObject.map Prod.fst = ["branches"] ∧
    branchesActionsExports.contains "branches" = false ∧
    branchesActionsExports.contains "branchesActions" = true ∧
    menuDispatch "list-branches" = some (MenuResult.invoked "listBranches") ∧
    menuDispatch "checkout-branch" =
      some (MenuResult.invoked "checkoutBranchAndUpdate") := by
  decide

/-- C4 counterexample: `registerCommands` registers no `finish-release`
subcommand, and the `merge-feature` subcommand's action references
`branches.mergeFeatureBranchCommand`, which `branches-actions.mjs` does
not export. -/
theorem registerCmds_surface_counterexample :
    "finish-release" ∉ registerCmds.map Prod.fst ∧
    ("merge-feature", "mergeFeatureBranchCommand") ∈ registerCmds ∧
    actionDefined "mergeFeatureBranchCommand" = false := by
  decide

/-- C4 amended: the registered subcommands are exactly `interactive`,
`branches`, `checkout-branch`, `delete-branches`, `create-feature`,
`create-release`, `create-hotfix`, `finish-hotfix`, `cherry-pick` and
`merge-feature` — there is no `finish-release` subcommand — and every
registered action except `merge-feature`'s resolves to a defined workflow
function, while `merge-feature`'s references an undefined export. -/
theorem registerCmds_surface_amended :
    registerCmds.map Prod.fst =
      ["interactive", "branches", "checkout-branch", "delete-branches",
       "create-feature", "create-release", "create-hotfix", "finish-hotfix",
       "cherry-pick", "merge-feature"] ∧
    (registerCmds.all fun p => p.1 = "merge-feature" || actionDefined p.2) = true ∧
    (registerCmds.filter fun p => !actionDefined p.2) =
      [("merge-feature", "mergeFeatureBranchCommand")] := by
  decide

/-- C2: on the spec's end-to-end input (on `develop`, clean tree, issue
key `JIRA-123`, name `Test Feature`), `createFeatureBranch` does create
and check out `feature/jira-123-test-feature` from `develop`, but then
terminates with the `ReferenceError` on the undeclared `changesStashed`
instead of succeeding — the code contradicts the claimed error-free
termination. -/
theorem createFeature_refError_at_jira123 :
    createFeatureBranchA featEnvJira =
      ([Ev.checkout "develop", Ev.pull, Ev.promptIssueKey, Ev.promptBranchName,
        Ev.createBranch "feature/jira-123-test-feature" (some "develop")],
       FOutcome.refError) := by
  decide

/-- C1 counterexample: a complete all-success `finish-hotfix` run whose
trace contains a tag creation but no separate tag confirmation prompt, so
"tag creation occurs iff the separate tag confirmation was answered yes"
fails (the prompt does not exist in `doRelease`). -/
theorem doRelease_tagConfirm_counterexample :
    Ev.createTag "1.0.1" ∈ (doRelease "hotfix" relEnvAllOk).1 ∧
    Ev.promptConfirmTag ∉ (doRelease "hotfix" relEnvAllOk).1 ∧
    ¬ ((∃ t, Ev.createTag t ∈ (doRelease "hotfix" relEnvAllOk).1) ↔
        Ev.promptConfirmTag ∈ (doRelease "hotfix" relEnvAllOk).1) := by
  refine ⟨by decide, by decide, fun h => absurd (h.mp ⟨"1.0.1", by decide⟩) (by decide)⟩


theorem mem_runSteps {x : Ev} : ∀ {l : List (Ev × Bool × ROutcome)},
    x ∈ (runSteps l).1 → x ∈ l.map (fun s => s.1) := by
  intro l
  induction l with
  | nil => simp [runSteps]
  | cons s rest ih =>
    obtain ⟨e, ok, bad⟩ := s
    cases ok with
    | false =>
      intro h
      simp only [runSteps, Bool.false_eq_true, if_false,
        List.mem_singleton] at h
      simp [h]
    | true =>
      intro h
      simp only [runSteps, if_true] at h
      rcases List.mem_cons.mp h with rfl | h
      · simp
      · simp [ih h]

theorem noReach_spec {P : Ev → Bool} : ∀ {l : List (Ev × Bool × ROutcome)},
    noReach P l = true → ∀ x ∈ (runSteps l).1, P x = false := by
  intro l
  induction l with
  | nil => intro _ x hx; simp [runSteps] at hx
  | cons s rest ih =>
    obtain ⟨e, ok, bad⟩ := s
    intro h x hx
    simp only [noReach, Bool.and_eq_true, Bool.or_eq_true,
      Bool.not_eq_true'] at h
    obtain ⟨hPe, hor⟩ := h
    cases ok with
    | false =>
      simp only [runSteps, Bool.false_eq_true, if_false,
        List.mem_singleton] at hx
      rw [hx]; exact hPe
    | true =>
      simp only [runSteps, if_true] at hx
      rcases List.mem_cons.mp hx with rfl | hx
      · exact hPe
      · rcases hor with hor | hor
        · simp at hor
        · exact ih hor x hx

theorem runSteps_allOk : ∀ {l : List (Ev × Bool × ROutcome)},
    (∀ s ∈ l, s.2.1 = true) →
    runSteps l = (l.map (fun s => s.1), ROutcome.completed) := by
  intro l
  induction l with
  | nil => intro _; rfl
  | cons s rest ih =>
    intro h
    obtain ⟨e, ok, bad⟩ := s
    have hs : ok = true := h (e, ok, bad) (List.mem_cons_self _ _)
    subst hs
    rw [runSteps, if_pos rfl, ih (fun s hs => h s (List.mem_cons_of_mem _ hs))]
    simp

theorem relMut_promptConfirmTag_not_mem (env : RelEnv) (rb m tn : String) :
    Ev.promptConfirmTag ∉ (relMut env rb m tn).1 := by
  intro h
  have h' : Ev.promptConfirmTag ∈
      (relSteps env rb m tn).map (fun s => s.1) := mem_runSteps h
  simp [relSteps] at h'

theorem relMut_merge_fail_no_followup (env : RelEnv) (rb m tn : String)
    (hm : env.mergeMainOk = false ∨ env.mergeDev1Ok = false ∨
      env.mergeDev2Ok = false) :
    ∀ x ∈ (relMut env rb m tn).1, x.isFollowup = false := by
  have hnr : noReach Ev.isFollowup (relSteps env rb m tn) = true := by
    rcases hm with hm | hm | hm <;>
      simp [noReach, relSteps, Ev.isFollowup, hm]
  exact noReach_spec hnr

theorem relMut_allOk (env : RelEnv) (rb m tn : String) (h : env.allMutOk) :
    relMut env rb m tn =
      ([.stash, .checkout rb, .checkout m, .pull, .checkout "develop", .pull,
        .checkout m, .merge rb, .checkout "develop", .merge rb, .merge rb,
        .promptTagName, .createTag env.tagAnswer, .push m, .push "develop",
        .push tn, .deleteLocal rb, .deleteRemote rb, .checkout "develop"],
       ROutcome.completed) := by
  obtain ⟨h1, h2, h3, h4, h5, h6, h7, h8, h9, h10, h11, h12, h13, h14, h15,
    h16, h17, h18⟩ := h
  have hall : ∀ s ∈ relSteps env rb m tn, s.2.1 = true := by
    simp [relSteps, h1, h2, h3, h4, h5, h6, h7, h8, h9, h10, h11, h12, h13,
      h14, h15, h16, h17, h18]
  unfold relMut
  rw [runSteps_allOk hall]
  simp [relSteps]

theorem doRelease_eq_invalid (type : String) (env : RelEnv)
    (h : ¬(type = "hotfix" ∨ type = "release")) :
    doRelease type env = ([], ROutcome.invalidType) := by
  push_neg at h
  unfold doRelease
  rw [if_pos h]

theorem doRelease_eq_of_empty (type : String) (env : RelEnv)
    (h1 : type = "hotfix" ∨ type = "release")
    (h2 : (env.branches.filter (fun b => strStartsWith b
      (if type = "hotfix" then "hotfix/" else "release/"))).isEmpty = true) :
    doRelease type env = ([], ROutcome.noBranches) := by
  have hvalid : ¬(type ≠ "hotfix" ∧ type ≠ "release") := by
    rcases h1 with h | h <;> simp [h]
  simp only [doRelease, if_neg hvalid, h2, if_true]

theorem doRelease_eq_noMain (type : String) (env : RelEnv)
    (h1 : type = "hotfix" ∨ type = "release")
    (h2 : (env.branches.filter (fun b => strStartsWith b
      (if type = "hotfix" then "hotfix/" else "release/"))).isEmpty = false)
    (hn : getMainBranch env.branches = none) :
    doRelease type env =
      ([Ev.promptSelectBranch (env.branches.filter (fun b => strStartsWith b
          (if type = "hotfix" then "hotfix/" else "release/")))],
       ROutcome.noMain) := by
  have hvalid : ¬(type ≠ "hotfix" ∧ type ≠ "release") := by
    rcases h1 with h | h <;> simp [h]
  simp only [doRelease, if_neg hvalid, h2, Bool.false_eq_true, if_false, hn,
    consTr]

theorem doRelease_eq_of_valid (type : String) (env : RelEnv) (m : String)
    (h1 : type = "hotfix" ∨ type = "release")
    (h2 : (env.branches.filter (fun b => strStartsWith b
      (if type = "hotfix" then "hotfix/" else "release/"))).isEmpty = false)
    (hm : getMainBranch env.branches = some m) :
    doRelease type env =
      consTr (.promptSelectBranch (env.branches.filter (fun b => strStartsWith b
          (if type = "hotfix" then "hotfix/" else "release/")))) (
        consTr .promptConfirmFinish (
          if !env.confirm then ([], ROutcome.canceled)
          else relMut env env.selected m (replaceFirstStr env.selected
            (if type = "hotfix" then "hotfix/" else "release/")))) := by
  have hvalid : ¬(type ≠ "hotfix" ∧ type ≠ "release") := by
    rcases h1 with h | h <;> simp [h]
  simp only [doRelease, if_neg hvalid, h2, Bool.false_eq_true, if_false, hm]

/-- C1 amended: `doRelease` never asks a separate tag-creation
confirmation (no run's trace contains `promptConfirmTag`; the only
tag-related prompt is the free-text tag name of `listAndSelectTag`), and
on every run that passes the merges and in which the remaining calls
succeed, tag creation is invoked exactly once and `main`, `develop` and
the branch-derived tag name are pushed in that order — there is no
decline path that would push only `main` and `develop`. -/
theorem doRelease_tag_always_created :
    (∀ type env, Ev.promptConfirmTag ∉ (doRelease type env).1) ∧
    (∀ type env m, (type = "hotfix" ∨ type = "release") →
      (env.branches.filter (fun b => strStartsWith b
        (if type = "hotfix" then "hotfix/" else "release/"))).isEmpty = false →
      getMainBranch env.branches = some m →
      env.confirm = true → env.allMutOk →
      doRelease type env =
        (Ev.promptSelectBranch (env.branches.filter (fun b => strStartsWith b
            (if type = "hotfix" then "hotfix/" else "release/"))) ::
         Ev.promptConfirmFinish ::
         [.stash, .checkout env.selected, .checkout m, .pull,
          .checkout "develop", .pull, .checkout m, .merge env.selected,
          .checkout "develop", .merge env.selected, .merge env.selected,
          .promptTagName, .createTag env.tagAnswer, .push m, .push "develop",
          .push (replaceFirstStr env.selected
            (if type = "hotfix" then "hotfix/" else "release/")),
          .deleteLocal env.selected, .deleteRemote env.selected,
          .checkout "develop"],
         ROutcome.completed)) := by
  constructor
  · intro type env
    by_cases hv : type = "hotfix" ∨ type = "release"
    · by_cases he : (env.branches.filter (fun b => strStartsWith b
        (if type = "hotfix" then "hotfix/" else "release/"))).isEmpty = true
      · rw [doRelease_eq_of_empty type env hv he]
        simp
      · have he' : (env.branches.filter (fun b => strStartsWith b
            (if type = "hotfix" then "hotfix/" else "release/"))).isEmpty
            = false := by simpa using he
        rcases hmb : getMainBranch env.branches with _ | mb
        · rw [doRelease_eq_noMain type env hv he' hmb]
          simp
        · rw [doRelease_eq_of_valid type env mb hv he' hmb]
          by_cases hc : env.confirm = true
          · rw [if_neg (show ¬((!env.confirm) = true) by simp [hc])]
            simp only [consTr]
            intro hmem
            simp only [List.mem_cons] at hmem
            rcases hmem with h | h | h
            · simp at h
            · simp at h
            · exact relMut_promptConfirmTag_not_mem env env.selected mb _ h
          · rw [if_pos (show (!env.confirm) = true by simpa using hc)]
            simp [consTr]
    · rw [doRelease_eq_invalid type env hv]
      simp
  · intro type env m h1 h2 hm hc hok
    rw [doRelease_eq_of_valid type env m h1 h2 hm,
      if_neg (show ¬((!env.confirm) = true) by simp [hc]),
      relMut_allOk env env.selected m _ hok]
    rfl

/-- C1 witness: the amended statement instantiated at the all-success
`finish-hotfix` environment. -/
theorem doRelease_tag_always_created_witness :
    Ev.promptConfirmTag ∉ (doRelease "release" relEnvAllOk).1 ∧
    doRelease "hotfix" relEnvAllOk =
      (Ev.promptSelectBranch ["hotfix/1.0.1"] :: Ev.promptConfirmFinish ::
       [.stash, .checkout "hotfix/1.0.1", .checkout "main", .pull,
        .checkout "develop", .pull, .checkout "main", .merge "hotfix/1.0.1",
        .checkout "develop", .merge "hotfix/1.0.1", .merge "hotfix/1.0.1",
        .promptTagName, .createTag "1.0.1", .push "main", .push "develop",
        .push "1.0.1", .deleteLocal "hotfix/1.0.1", .deleteRemote "hotfix/1.0.1",
        .checkout "develop"],
       ROutcome.completed) := by
  constructor
  · exact doRelease_tag_always_created.1 "release" relEnvAllOk
  · have h := doRelease_tag_always_created.2 "hotfix" relEnvAllOk "main"
      (Or.inl rfl) (by decide) (by decide) rfl
      (by exact ⟨rfl, rfl, rfl, rfl, rfl, rfl, rfl, rfl, rfl, rfl, rfl, rfl,
        rfl, rfl, rfl, rfl, rfl, rfl⟩)
    simpa using h

/-- C3: in every `doRelease` run in which a `mergeBranch` call into the
main branch or into `develop` throws (merge conflict), the workflow
aborts before the subsequent steps: no tag is created, nothing is pushed
to any remote, and neither the local nor the remote release/hotfix
branch is deleted. -/
theorem doRelease_merge_conflict_aborts (type : String) (env : RelEnv)
    (hm : env.mergeMainOk = false ∨ env.mergeDev1Ok = false ∨
      env.mergeDev2Ok = false) :
    (∀ t, Ev.createTag t ∉ (doRelease type env).1) ∧
    (∀ r, Ev.push r ∉ (doRelease type env).1) ∧
    (∀ b, Ev.deleteLocal b ∉ (doRelease type env).1) ∧
    (∀ b, Ev.deleteRemote b ∉ (doRelease type env).1) := by
  have key : ∀ x ∈ (doRelease type env).1, x.isFollowup = false := by
    intro x hx
    by_cases hv : type = "hotfix" ∨ type = "release"
    · by_cases he : (env.branches.filter (fun b => strStartsWith b
        (if type = "hotfix" then "hotfix/" else "release/"))).isEmpty = true
      · rw [doRelease_eq_of_empty type env hv he] at hx
        simp at hx
      · have he' : (env.branches.filter (fun b => strStartsWith b
            (if type = "hotfix" then "hotfix/" else "release/"))).isEmpty
            = false := by simpa using he
        rcases hmb : getMainBranch env.branches with _ | mb
        · rw [doRelease_eq_noMain type env hv he' hmb] at hx
          rw [List.mem_singleton.mp hx]
          rfl
        · rw [doRelease_eq_of_valid type env mb hv he' hmb] at hx
          by_cases hc : env.confirm = true
          · rw [if_neg (show ¬((!env.confirm) = true) by simp [hc])] at hx
            simp only [consTr, List.mem_cons] at hx
            rcases hx with rfl | rfl | hx
            · rfl
            · rfl
            · exact relMut_merge_fail_no_followup env env.selected mb _ hm x hx
          · rw [if_pos (show (!env.confirm) = true by simpa using hc)] at hx
            simp only [consTr, List.mem_cons, List.not_mem_nil, or_false] at hx
            rcases hx with rfl | rfl
            · rfl
            · rfl
    · rw [doRelease_eq_invalid type env hv] at hx
      simp at hx
  refine ⟨fun t ht => ?_, fun r hr => ?_, fun b hb => ?_, fun b hb => ?_⟩
  · have := key _ ht; simp [Ev.isFollowup] at this
  · have := key _ hr; simp [Ev.isFollowup] at this
  · have := key _ hb; simp [Ev.isFollowup] at this
  · have := key _ hb; simp [Ev.isFollowup] at this

/-- C3 witness: the conflict-abort statement instantiated at a
`finish-hotfix` run whose merge into `main` throws. -/
theorem doRelease_merge_conflict_aborts_witness :
    Ev.createTag "1.0.1" ∉
      (doRelease "hotfix" { relEnvAllOk with mergeMainOk := false }).1 ∧
    Ev.push "main" ∉
      (doRelease "hotfix" { relEnvAllOk with mergeMainOk := false }).1 ∧
    Ev.deleteLocal "hotfix/1.0.1" ∉
      (doRelease "hotfix" { relEnvAllOk with mergeMainOk := false }).1 ∧
    Ev.deleteRemote "hotfix/1.0.1" ∉
      (doRelease "hotfix" { relEnvAllOk with mergeMainOk := false }).1 := by
  obtain ⟨w1, w2, w3, w4⟩ := doRelease_merge_conflict_aborts "hotfix"
    { relEnvAllOk with mergeMainOk := false } (Or.inl rfl)
  exact ⟨w1 "1.0.1", w2 "main", w3 "hotfix/1.0.1", w4 "hotfix/1.0.1"⟩

/-- C6: if the user declines the merge confirmation, `doRelease` stops
with outcome `canceled` having emitted only the two prompts (no stash,
checkout, pull, merge, tag creation, push, or branch deletion); and if no
branch with the requested prefix exists, it stops with outcome
`noBranches` having emitted nothing at all. -/
theorem doRelease_cancel_or_empty_no_mutation :
    (∀ type env, (type = "hotfix" ∨ type = "release") →
      (env.branches.filter (fun b => strStartsWith b
        (if type = "hotfix" then "hotfix/" else "release/"))).isEmpty = true →
      doRelease type env = ([], ROutcome.noBranches)) ∧
    (∀ type env m, (type = "hotfix" ∨ type = "release") →
      (env.branches.filter (fun b => strStartsWith b
        (if type = "hotfix" then "hotfix/" else "release/"))).isEmpty = false →
      getMainBranch env.branches = some m →
      env.confirm = false →
      doRelease type env =
        ([Ev.promptSelectBranch (env.branches.filter (fun b => strStartsWith b
            (if type = "hotfix" then "hotfix/" else "release/"))),
          Ev.promptConfirmFinish], ROutcome.canceled) ∧
      ∀ e ∈ (doRelease type env).1, e.isMutation = false) := by
  constructor
  · intro type env h1 h2
    exact doRelease_eq_of_empty type env h1 h2
  · intro type env m h1 h2 hm hc
    have heq : doRelease type env =
        ([Ev.promptSelectBranch (env.branches.filter (fun b => strStartsWith b
            (if type = "hotfix" then "hotfix/" else "release/"))),
          Ev.promptConfirmFinish], ROutcome.canceled) := by
      rw [doRelease_eq_of_valid type env m h1 h2 hm,
        if_pos (show (!env.confirm) = true by simp [hc])]
      rfl
    refine ⟨heq, ?_⟩
    rw [heq]
    intro e he
    simp only [List.mem_cons, List.not_mem_nil, or_false] at he
    rcases he with rfl | rfl
    · rfl
    · rfl

/-- C6 witness: the two parts instantiated at a repository with no
`release/` branch and at a declined `finish-hotfix` confirmation. -/
theorem doRelease_cancel_or_empty_no_mutation_witness :
    doRelease "release" relEnvAllOk = ([], ROutcome.noBranches) ∧
    doRelease "hotfix" { relEnvAllOk with confirm := false } =
      ([Ev.promptSelectBranch ["hotfix/1.0.1"], Ev.promptConfirmFinish],
       ROutcome.canceled) := by
  constructor
  · exact doRelease_cancel_or_empty_no_mutation.1 "release" relEnvAllOk
      (Or.inr rfl) (by decide)
  · have h := (doRelease_cancel_or_empty_no_mutation.2 "hotfix"
      { relEnvAllOk with confirm := false } "main" (Or.inl rfl) (by decide)
      (by decide) rfl).1
    simpa using h

/-- C7 counterexample: `getMainBranch` selects any branch *prefixed* by
`main`, so the branch `maintenance` is selected even when `master` is
also present, contradicting the claim that only a branch literally named
`main` (or prefixed `master`) can be returned; `getMainBranchSpec`, the
spec-worded resolver, picks `master` on the same input. -/
theorem getMainBranch_prefix_counterexample :
    getMainBranch ["maintenance", "master"] = some "maintenance" ∧
    getMainBranchSpec ["maintenance", "master"] = some "master" ∧
    getMainBranch ["maintenance", "master"] ≠
      getMainBranchSpec ["maintenance", "master"] := by
  decide

/-- C7 amended: `getMainBranch` returns the first branch whose name
starts with `main` or with `master` (so a branch such as `maintenance`
is selected); it returns `undefined` exactly when no branch matches, and
in that case `doRelease` stops (`noMain`) right after the selection
prompt, before any mutation. -/
theorem getMainBranch_amended :
    (∀ b bs, (strStartsWith b "main" || strStartsWith b "master") = true →
      getMainBranch (b :: bs) = some b) ∧
    (∀ b bs, (strStartsWith b "main" || strStartsWith b "master") = false →
      getMainBranch (b :: bs) = getMainBranch bs) ∧
    (∀ bs m, getMainBranch bs = some m →
      m ∈ bs ∧ (strStartsWith m "main" = true ∨ strStartsWith m "master" = true)) ∧
    (∀ type env, (type = "hotfix" ∨ type = "release") →
      (env.branches.filter (fun b => strStartsWith b
        (if type = "hotfix" then "hotfix/" else "release/"))).isEmpty = false →
      getMainBranch env.branches = none →
      doRelease type env =
        ([Ev.promptSelectBranch (env.branches.filter (fun b => strStartsWith b
            (if type = "hotfix" then "hotfix/" else "release/")))],
         ROutcome.noMain) ∧
      ∀ e ∈ (doRelease type env).1, e.isMutation = false) := by
  refine ⟨?_, ?_, ?_, ?_⟩
  · intro b bs h
    simp [getMainBranch, List.find?, h]
  · intro b bs h
    simp [getMainBranch, List.find?, h]
  · intro bs m h
    refine ⟨List.mem_of_find?_eq_some h, ?_⟩
    have hp := List.find?_some h
    simpa using hp
  · intro type env h1 h2 hn
    have heq := doRelease_eq_noMain type env h1 h2 hn
    refine ⟨heq, ?_⟩
    rw [heq]
    intro e he
    rw [List.mem_singleton.mp he]
    rfl

/-- C7 witness: the amended statement evaluated at concrete branch
lists, including the `noMain` stop of `doRelease`. -/
theorem getMainBranch_amended_witness :
    getMainBranch ["maintenance", "develop"] = some "maintenance" ∧
    getMainBranch ["develop", "master"] = getMainBranch ["master"] ∧
    ("maintenance" ∈ (["maintenance", "develop"] : List String) ∧
      (strStartsWith "maintenance" "main" = true ∨
       strStartsWith "maintenance" "master" = true)) ∧
    doRelease "hotfix"
        { relEnvAllOk with branches := ["develop", "hotfix/1.0.1"] } =
      ([Ev.promptSelectBranch ["hotfix/1.0.1"]], ROutcome.noMain) := by
  refine ⟨?_, ?_, ?_, ?_⟩
  · exact getMainBranch_amended.1 "maintenance" ["develop"] (by decide)
  · exact getMainBranch_amended.2.1 "develop" ["master"] (by decide)
  · exact getMainBranch_amended.2.2.1 ["maintenance", "develop"] "maintenance"
      (by decide)
  · have h := (getMainBranch_amended.2.2.2 "hotfix"
      { relEnvAllOk with branches := ["develop", "hotfix/1.0.1"] }
      (Or.inl rfl) (by decide) (by decide)).1
    simpa using h

/-- C5: `createReleaseBranch` (resp. `createHotfix`) fails, before any
mutation (its trace is empty), with a precondition error carrying
exactly the list of existing `release/` (resp. `hotfix/`) branches — the
interpolated message lists every offending branch — whenever such a
branch exists; and when none exists the workflow proceeds: it updates
the base branch and creates the new branch. -/
theorem createReleaseHotfix_precondition :
    (∀ e : CreateEnv,
      (e.branches.filter (fun b => strStartsWith b "release/")).isEmpty = false →
      createReleaseBranchM e =
        ([], CROutcome.precondFail
          (e.branches.filter (fun b => strStartsWith b "release/"))) ∧
      ∀ b ∈ e.branches, strStartsWith b "release/" = true →
        b ∈ e.branches.filter (fun b => strStartsWith b "release/")) ∧
    (∀ e : CreateEnv,
      (e.branches.filter (fun b => strStartsWith b "hotfix/")).isEmpty = false →
      createHotfixM e =
        ([], CROutcome.precondFail
          (e.branches.filter (fun b => strStartsWith b "hotfix/"))) ∧
      ∀ b ∈ e.branches, strStartsWith b "hotfix/" = true →
        b ∈ e.branches.filter (fun b => strStartsWith b "hotfix/")) ∧
    (∀ e : CreateEnv,
      (e.branches.filter (fun b => strStartsWith b "release/")).isEmpty = true →
      e.base.stashOk = true → e.base.coOk = true → e.base.pullOk = true →
      e.createOk = true →
      createReleaseBranchM e =
        ((if e.base.statusDirty then [Ev.stash] else []) ++
         [Ev.checkout "develop", Ev.pull, Ev.promptTagName,
          Ev.createBranch ("release/" ++ e.tagAnswer) (some "develop"),
          Ev.setUpstreamPush],
         CROutcome.ok ("release/" ++ e.tagAnswer))) ∧
    (∀ e : CreateEnv,
      (e.branches.filter (fun b => strStartsWith b "hotfix/")).isEmpty = true →
      e.base.stashOk = true → e.base.coOk = true → e.base.pullOk = true →
      e.createOk = true →
      createHotfixM e =
        ((if e.base.statusDirty then [Ev.stash] else []) ++
         [Ev.checkout ((getMainBranch e.branches).getD "undefined"), Ev.pull,
          Ev.promptTagName,
          Ev.createBranch ("hotfix/" ++ e.tagAnswer) (getMainBranch e.branches)],
         CROutcome.ok ("hotfix/" ++ e.tagAnswer))) := by
  refine ⟨?_, ?_, ?_, ?_⟩
  · intro e h
    refine ⟨by simp [createReleaseBranchM, h], ?_⟩
    intro b hb hsw
    exact List.mem_filter.mpr ⟨hb, hsw⟩
  · intro e h
    refine ⟨by simp [createHotfixM, h], ?_⟩
    intro b hb hsw
    exact List.mem_filter.mpr ⟨hb, hsw⟩
  · intro e h hs hc hp hcr
    simp [createReleaseBranchM, checkoutDevelopM, h, hs, hc, hp, hcr]
  · intro e h hs hc hp hcr
    simp [createHotfixM, checkoutMainM, h, hs, hc, hp, hcr]

/-- C5 witness: the four parts instantiated at concrete repositories,
with and without an existing `release/` / `hotfix/` branch. -/
theorem createReleaseHotfix_precondition_witness :
    createReleaseBranchM
        { createEnvClean with branches := ["main", "develop", "release/1.0.1"] } =
      ([], CROutcome.precondFail ["release/1.0.1"]) ∧
    createHotfixM
        { createEnvClean with branches := ["main", "develop", "hotfix/1.0.1"] } =
      ([], CROutcome.precondFail ["hotfix/1.0.1"]) ∧
    createReleaseBranchM createEnvClean =
      ([Ev.checkout "develop", Ev.pull, Ev.promptTagName,
        Ev.createBranch "release/1.0.2" (some "develop"), Ev.setUpstreamPush],
       CROutcome.ok "release/1.0.2") ∧
    createHotfixM createEnvClean =
      ([Ev.checkout "main", Ev.pull, Ev.promptTagName,
        Ev.createBranch "hotfix/1.0.2" (some "main")],
       CROutcome.ok "hotfix/1.0.2") := by
  refine ⟨?_, ?_, ?_, ?_⟩
  · rw [(createReleaseHotfix_precondition.1
      { createEnvClean with branches := ["main", "develop", "release/1.0.1"] }
      (by decide)).1]
    decide
  · rw [(createReleaseHotfix_precondition.2.1
      { createEnvClean with branches := ["main", "develop", "hotfix/1.0.1"] }
      (by decide)).1]
    decide
  · rw [createReleaseHotfix_precondition.2.2.1 createEnvClean (by decide)
      rfl rfl rfl rfl]
    decide
  · rw [createReleaseHotfix_precondition.2.2.2 createEnvClean (by decide)
      rfl rfl rfl rfl]
    decide

/-- C9: in every `cherryPickChanges` run that stashed changes at the
start and reaches the cherry-pick execution, `applyStash` is invoked
immediately after the cherry-pick, and the run completes — with no
hypothesis on the cherry-pick result (`cherryOk`) or on the stash
restore (`applyOk`): a failed restore is only warned about, never
re-thrown. -/
theorem cherryPick_stash_restored (e : CherryEnv)
    (hd : e.statusDirty = true) (hs : e.stashOk = true)
    (hb : (e.branches.filter (fun b => b ≠ e.currentBranch)).isEmpty = false)
    (hcm : e.commitsEmpty = false) (hcf : e.confirm = true) :
    (e.selectedBranch = e.currentBranch →
      cherryPickChangesM e =
        ([Ev.stash,
          Ev.promptSelectBranch (e.branches.filter (fun b => b ≠ e.currentBranch)),
          Ev.promptSelectCommit, Ev.promptConfirmCherry,
          Ev.cherryPick e.selectedCommit, Ev.applyStash],
         COutcome.completed)) ∧
    (e.selectedBranch ≠ e.currentBranch → e.coSelOk = true → e.coBackOk = true →
      cherryPickChangesM e =
        ([Ev.stash,
          Ev.promptSelectBranch (e.branches.filter (fun b => b ≠ e.currentBranch)),
          Ev.checkout e.selectedBranch, Ev.checkout e.currentBranch,
          Ev.promptSelectCommit, Ev.promptConfirmCherry,
          Ev.cherryPick e.selectedCommit, Ev.applyStash],
         COutcome.completed)) := by
  have hbe : ∃ x ∈ e.branches, ¬x = e.currentBranch := by simpa using hb
  constructor
  · intro hsel
    simp [cherryPickChangesM, cherryAfterFetch, hd, hs, hb, hcm, hcf, hsel, hbe]
  · intro hsel hco hcb
    simp [cherryPickChangesM, cherryAfterFetch, hd, hs, hb, hcm, hcf, hsel,
      hco, hcb, hbe]

/-- C9 witness: the foreign-branch case of `cherryPick_stash_restored`
at a concrete dirty-tree environment in which the cherry-pick reports a
conflict and the stash restore fails, and the run still completes with
`applyStash` invoked right after the cherry-pick. -/
theorem cherryPick_stash_restored_witness :
    cherryPickChangesM cherryEnvDirty =
      ([Ev.stash, Ev.promptSelectBranch ["main", "feature/x"],
        Ev.checkout "feature/x", Ev.checkout "develop",
        Ev.promptSelectCommit, Ev.promptConfirmCherry,
        Ev.cherryPick "abc1234", Ev.applyStash], COutcome.completed) := by
  have h := (cherryPick_stash_restored cherryEnvDirty rfl rfl (by decide)
    rfl rfl).2 (by decide) rfl rfl
  rw [h]
  decide

end GitManager
